import Mathlib

/-!
Verification of the Budget Distribution & Forecast Engine of the
project-analytics dashboard (`project_visualization_app.py`).

The engine is `calculate_approved_budget(df, rule_name)`: it checks the
schema for the required columns, coerces dates and the planned budget,
filters invalid records, groups the remainder by the grouping columns
present, generates the calendar-month span of each group, aggregates a
monthly 100% baseline by interval overlap, splits each baseline by a
first/middle/last percentage rule and emits one row per month with a
nonzero baseline.  `calculate_forecast_budget` re-runs the same engine on
an optionally edited data set and copies the allocated amount into a
`forecast budget` column.

Modelling choices: a pandas Timestamp produced by `pd.to_datetime(...,
errors="coerce")` is `Option Date` (`none` is NaT); a coerced numeric is
`Option ℚ` (`none` is NaN); `pd.Period("M")` is its month ordinal
`year * 12 + (month - 1)`, the integer pandas itself stores, so the
month-stepping `while` loop becomes a recursion stepping the ordinal by
one; a DataFrame is its schema (which columns exist) plus a list of
records.
-/

namespace BudgetApp

/-- A calendar date as held by a pandas Timestamp (midnight). -/
structure Date where
  year : Nat
  month : Nat
  day : Nat
  deriving DecidableEq, Repr

/-- Chronological order on dates: lexicographic on (year, month, day),
mirroring Timestamp comparison. -/
def Date.le (a b : Date) : Bool :=
  if a.year ≠ b.year then decide (a.year < b.year)
  else if a.month ≠ b.month then decide (a.month < b.month)
  else decide (a.day ≤ b.day)

/-- Gregorian leap-year test, as used by pandas calendars. -/
def isLeapYear (y : Nat) : Bool :=
  (y % 4 == 0 && y % 100 != 0) || (y % 400 == 0)

/-- Number of days of month `m` of year `y`. -/
def daysInMonth (y m : Nat) : Nat :=
  if m = 2 then (if isLeapYear y then 29 else 28)
  else if m = 4 ∨ m = 6 ∨ m = 9 ∨ m = 11 then 30
  else 31

/-- Well-formedness of a date as produced by `pd.to_datetime`: the month
is 1..12 and the day fits the month. -/
def dateWF (d : Date) : Bool :=
  decide (1 ≤ d.month) && decide (d.month ≤ 12) &&
    decide (1 ≤ d.day) && decide (d.day ≤ daysInMonth d.year d.month)

/-- The month ordinal of a date, i.e. the integer behind
`timestamp.to_period("M")`. -/
def Date.periodM (d : Date) : Nat := d.year * 12 + (d.month - 1)

/-- First calendar day of a month ordinal: `period.start_time`. -/
def periodStartDate (p : Nat) : Date :=
  ⟨p / 12, p % 12 + 1, 1⟩

/-- Last calendar day of a month ordinal: the day of `period.end_time`. -/
def periodEndDate (p : Nat) : Date :=
  ⟨p / 12, p % 12 + 1, daysInMonth (p / 12) (p % 12 + 1)⟩

/-- One input record after the engine's coercions: `plan start` and
`plan end` via `pd.to_datetime(..., errors="coerce")` (`none` = NaT),
`budget plan` via `pd.to_numeric(..., errors="coerce")` (`none` = NaN),
and the three grouping cells, `none` being a null cell. -/
structure RawRecord where
  budgetPlan : Option ℚ
  planStart : Option Date
  planEnd : Option Date
  projectName : Option String
  sectionName : Option String
  taskName : Option String
  deriving DecidableEq, Repr

/-- Which of the six columns the engine looks for exist in the input
DataFrame. -/
structure Schema where
  hasBudgetPlan : Bool
  hasPlanStart : Bool
  hasPlanEnd : Bool
  hasProjectName : Bool
  hasSection : Bool
  hasTaskName : Bool
  deriving DecidableEq, Repr

/-- `required_cols = ["budget plan", "plan start", "plan end"]`. -/
def requiredCols : List String := ["budget plan", "plan start", "plan end"]

/-- Membership of a column name in the DataFrame's columns. -/
def hasCol (s : Schema) (c : String) : Bool :=
  if c = "budget plan" then s.hasBudgetPlan
  else if c = "plan start" then s.hasPlanStart
  else if c = "plan end" then s.hasPlanEnd
  else if c = "project name" then s.hasProjectName
  else if c = "section" then s.hasSection
  else if c = "task name" then s.hasTaskName
  else false

/-- `missing_cols = [col for col in required_cols if col not in df.columns]`. -/
def missingCols (s : Schema) : List String :=
  requiredCols.filter (fun c => !hasCol s c)

/-- The schema error message built by the engine. -/
def schemaErrorMsg (cols : List String) : String :=
  "Отсутствуют необходимые колонки: " ++ String.intercalate ", " cols

/-- The message returned when the validity filter leaves no records. -/
def noValidDataMsg : String := "Нет данных с валидными датами и бюджетом"

/-- The message returned when no allocation rows were produced. -/
def noRowsMsg : String := "Нет данных для расчета утвержденного бюджета"

/-- The validity mask: both dates parsed, budget parsed and positive, and
`plan start <= plan end`. -/
def validRecord (r : RawRecord) : Bool :=
  match r.planStart, r.planEnd, r.budgetPlan with
  | some s, some e, some b => decide (0 < b) && Date.le s e
  | _, _, _ => false

/-- Whether any of the three grouping columns exists. -/
def groupingPresent (s : Schema) : Bool :=
  s.hasProjectName || s.hasSection || s.hasTaskName

/-- The grouping cells of a record, in the column order the engine uses. -/
def keyParts (s : Schema) (r : RawRecord) : List (Option String) :=
  (if s.hasProjectName then [r.projectName] else []) ++
    (if s.hasSection then [r.sectionName] else []) ++
    (if s.hasTaskName then [r.taskName] else [])

/-- Collects a list of optional cells into an optional list; `none` as
soon as one cell is null. -/
def collectCells : List (Option String) → Option (List String)
  | [] => some []
  | none :: _ => none
  | some v :: rest => (collectCells rest).map (fun l => v :: l)

/-- The group key of a record.  When grouping columns exist this is the
tuple of their values, and `none` when one of them is null — pandas
`groupby` drops such rows.  Without grouping columns every record falls
into the single fictitious `_group = "all"` group, rendered as the empty
key. -/
def groupKeyOf (s : Schema) (r : RawRecord) : Option (List String) :=
  if groupingPresent s then collectCells (keyParts s r) else some []

/-- The distinct group keys of the valid records. -/
def groupKeysOf (s : Schema) (valid : List RawRecord) : List (List String) :=
  (valid.filterMap (groupKeyOf s)).dedup

/-- The member records of the group with key `k`. -/
def membersOf (s : Schema) (valid : List RawRecord) (k : List String) :
    List RawRecord :=
  valid.filter (fun r => groupKeyOf s r = some k)

/-- The earlier of two dates. -/
def dateMin (a b : Date) : Date := if Date.le a b then a else b

/-- The later of two dates. -/
def dateMax (a b : Date) : Date := if Date.le a b then b else a

/-- Minimum of a list of dates, `none` on the empty list. -/
def listMinDate : List Date → Option Date
  | [] => none
  | d :: rest =>
    match listMinDate rest with
    | none => some d
    | some m => some (dateMin d m)

/-- Maximum of a list of dates, `none` on the empty list. -/
def listMaxDate : List Date → Option Date
  | [] => none
  | d :: rest =>
    match listMaxDate rest with
    | none => some d
    | some m => some (dateMax d m)

/-- `group_df["plan start"].min()`: pandas skips NaT cells. -/
def minStart? (members : List RawRecord) : Option Date :=
  listMinDate (members.filterMap (fun r => r.planStart))

/-- `group_df["plan end"].max()`: pandas skips NaT cells. -/
def maxEnd? (members : List RawRecord) : Option Date :=
  listMaxDate (members.filterMap (fun r => r.planEnd))

/-- Structural engine of the month loop: `monthSpanGo n cur` emits `n`
consecutive months starting at `cur`. -/
def monthSpanGo : Nat → Nat → List Nat
  | 0, _ => []
  | n + 1, cur => cur :: monthSpanGo n (cur + 1)

/-- The `while current_date <= end_month` loop over month ordinals: emit
the current month and step to the next until the end month is passed.
The loop runs exactly `stop + 1 - cur` times, which is made explicit as
structural fuel; `monthSpan_of_le` and `monthSpan_of_gt` below recover
the guarded unfolding of the `while` loop. -/
def monthSpan (cur stop : Nat) : List Nat :=
  monthSpanGo (stop + 1 - cur) cur

/-- The period sequence of a group: from the month of the minimum
`plan start` through the month of the maximum `plan end`; empty when a
bound is missing (the `continue` branch). -/
def groupMonths (members : List RawRecord) : List Nat :=
  match minStart? members, maxEnd? members with
  | some mn, some mx => monthSpan mn.periodM mx.periodM
  | _, _ => []

/-- The interval-overlap test of the aggregator:
`(plan start <= month_end) & (plan end >= month_start)`. -/
def activeInMonth (r : RawRecord) (p : Nat) : Bool :=
  match r.planStart, r.planEnd with
  | some s, some e => Date.le s (periodEndDate p) && Date.le (periodStartDate p) e
  | _, _ => false

/-- The month's 100% baseline: the sum of `budget plan` over the group
members active in the month. -/
def monthlyBudget (members : List RawRecord) (p : Nat) : ℚ :=
  ((members.filter (fun r => activeInMonth r p)).map
    (fun r => r.budgetPlan.getD 0)).sum

/-- A percentage-split rule of the registry. -/
structure DistributionRule where
  firstMonthPercent : ℚ
  middleMonthsPercent : ℚ
  lastMonthPercent : ℚ
  deriving DecidableEq, Repr

/-- The only rule of the registry: 50% / 45% / 5%. -/
def defaultRule : DistributionRule :=
  { firstMonthPercent := 1/2, middleMonthsPercent := 45/100,
    lastMonthPercent := 5/100 }

/-- The rule registry `budget_rules`, keyed by name. -/
def budget_rules (name : String) : Option DistributionRule :=
  if name = "default" then some defaultRule else none

/-- `if rule_name not in budget_rules: rule_name = "default"`. -/
def effectiveRuleName (name : String) : String :=
  if (budget_rules name).isSome then name else "default"

/-- The rule actually applied after the fallback. -/
def getRule (name : String) : DistributionRule :=
  (budget_rules (effectiveRuleName name)).getD defaultRule

/-- The per-group (first, middle, last) percentages computed from the
number of months of the span. -/
def groupPercents (rule : DistributionRule) (numMonths : Nat) : ℚ × ℚ × ℚ :=
  if numMonths = 1 then (1, 0, 0)
  else if numMonths = 2 then
    (rule.firstMonthPercent, 0, rule.middleMonthsPercent + rule.lastMonthPercent)
  else
    (rule.firstMonthPercent,
      rule.middleMonthsPercent / ((numMonths - 2 : Nat) : ℚ),
      rule.lastMonthPercent)

/-- The percentage applied to position `i` of a span of `numMonths`
months: first position, last position, otherwise the middle share. -/
def monthPercent (rule : DistributionRule) (numMonths i : Nat) : ℚ :=
  if i = 0 then (groupPercents rule numMonths).1
  else if i = numMonths - 1 then (groupPercents rule numMonths).2.2
  else (groupPercents rule numMonths).2.1

/-- One output row of the engine: the month, the allocated amount, the
month's 100% baseline, the effective rule name and the grouping values. -/
structure AllocationRow where
  month : Nat
  approvedBudget : ℚ
  budgetPlan : ℚ
  ruleName : String
  groupVals : List String
  deriving DecidableEq, Repr

/-- The per-month emission step: skip the month when its baseline is zero,
otherwise emit the row with `approved_budget = total * percent`. -/
def allocRowFor (rule : DistributionRule) (ruleName : String)
    (k : List String) (members : List RawRecord) (numMonths : Nat)
    (ip : Nat × Nat) : Option AllocationRow :=
  let tot := monthlyBudget members ip.2
  if tot = 0 then none
  else some { month := ip.2,
              approvedBudget := tot * monthPercent rule numMonths ip.1,
              budgetPlan := tot, ruleName := ruleName, groupVals := k }

/-- All rows of one group: enumerate the period sequence with its
positions and apply the emission step. -/
def groupRows (rule : DistributionRule) (ruleName : String)
    (k : List String) (members : List RawRecord) : List AllocationRow :=
  let months := groupMonths members
  months.enum.filterMap (allocRowFor rule ruleName k members months.length)

/-- The Allocation Engine `calculate_approved_budget`: returns the row
list and an optional error message, exactly one of which is meaningful. -/
def calculate_approved_budget (s : Schema) (df : List RawRecord)
    (ruleName : String) : List AllocationRow × Option String :=
  if missingCols s ≠ [] then ([], some (schemaErrorMsg (missingCols s)))
  else
    let valid := df.filter validRecord
    if valid = [] then ([], some noValidDataMsg)
    else
      let rows := (groupKeysOf s valid).flatMap
        (fun k => groupRows (getRule ruleName) (effectiveRuleName ruleName) k
          (membersOf s valid k))
      if rows = [] then ([], some noRowsMsg) else (rows, none)

/-- A forecast row: the allocation row plus the copied `forecast budget`
column. -/
structure ForecastRow where
  base : AllocationRow
  forecastBudget : ℚ
  deriving DecidableEq, Repr

/-- The Forecast Overlay `calculate_forecast_budget`: run the Allocation
Engine on the edited data when supplied (otherwise on the original),
propagate an error unchanged, and copy the approved amount into the
`forecast budget` column. -/
def calculate_forecast_budget (s : Schema) (df : List RawRecord)
    (edited : Option (Schema × List RawRecord)) (ruleName : String) :
    List ForecastRow × Option String :=
  let work := edited.getD (s, df)
  let res := calculate_approved_budget work.1 work.2 ruleName
  match res.2 with
  | some err => ([], some err)
  | none =>
    (res.1.map (fun r => { base := r, forecastBudget := r.approvedBudget }), none)

/-- Well-formedness of the dates a record carries, when it carries any:
this is what `pd.to_datetime` guarantees for every non-NaT cell. -/
def recordDatesWF (r : RawRecord) : Bool :=
  (match r.planStart with | some d => dateWF d | none => true) &&
    (match r.planEnd with | some d => dateWF d | none => true)

/-- Concrete schema for the witnesses below: the three required columns
and `project name` exist. -/
def exSchema : Schema := ⟨true, true, true, true, false, false⟩

/-- Concrete schema lacking the `budget plan` column. -/
def exSchemaNoBudget : Schema := ⟨false, true, true, true, false, false⟩

/-- Concrete valid record spanning a single month (January 2025). -/
def exRecord : RawRecord :=
  { budgetPlan := some 100000, planStart := some ⟨2025, 1, 10⟩,
    planEnd := some ⟨2025, 1, 20⟩, projectName := some "P",
    sectionName := none, taskName := none }

/-- Concrete invalid record: `plan start` after `plan end`. -/
def exRecordInverted : RawRecord :=
  { budgetPlan := some 100000, planStart := some ⟨2025, 3, 20⟩,
    planEnd := some ⟨2025, 1, 10⟩, projectName := some "P",
    sectionName := none, taskName := none }

/-- Concrete valid record whose `project name` cell is null. -/
def exRecordNullKey : RawRecord :=
  { budgetPlan := some 100000, planStart := some ⟨2025, 1, 10⟩,
    planEnd := some ⟨2025, 1, 20⟩, projectName := none,
    sectionName := none, taskName := none }

/-- The single row the engine emits for `exRecord` under `exSchema`. -/
def exRow : AllocationRow :=
  { month := 24300, approvedBudget := 100000, budgetPlan := 100000,
    ruleName := "default", groupVals := ["P"] }

/-! ### Helper lemmas about dates -/

lemma dateLe_iff (a b : Date) : Date.le a b = true ↔
    (a.year < b.year ∨ (a.year = b.year ∧ (a.month < b.month ∨
      (a.month = b.month ∧ a.day ≤ b.day)))) := by
  unfold Date.le
  split_ifs <;> simp only [decide_eq_true_eq] <;> omega

lemma dateLe_refl (a : Date) : Date.le a a = true := by
  rw [dateLe_iff]; omega

lemma dateLe_trans {a b c : Date} (h1 : Date.le a b = true)
    (h2 : Date.le b c = true) : Date.le a c = true := by
  rw [dateLe_iff] at h1 h2 ⊢; omega

lemma dateLe_of_not_le {a b : Date} (h : ¬ Date.le a b = true) :
    Date.le b a = true := by
  rw [dateLe_iff] at h ⊢; omega

lemma dateWF_iff (d : Date) : dateWF d = true ↔
    (1 ≤ d.month ∧ d.month ≤ 12 ∧ 1 ≤ d.day ∧
      d.day ≤ daysInMonth d.year d.month) := by
  unfold dateWF
  simp [Bool.and_eq_true, decide_eq_true_eq, and_assoc]

lemma periodM_mono {a b : Date} (ha : dateWF a = true) (hb : dateWF b = true)
    (h : Date.le a b = true) : a.periodM ≤ b.periodM := by
  rw [dateLe_iff] at h
  rw [dateWF_iff] at ha hb
  unfold Date.periodM
  omega

/-! ### Helper lemmas about the month span -/

lemma monthSpan_of_le (a b : Nat) (h : a ≤ b) :
    monthSpan a b = a :: monthSpan (a + 1) b := by
  unfold monthSpan
  have h1 : b + 1 - a = (b - a) + 1 := by omega
  have h2 : b + 1 - (a + 1) = b - a := by omega
  rw [h1, h2]
  rfl

lemma monthSpan_of_gt (a b : Nat) (h : b < a) : monthSpan a b = [] := by
  unfold monthSpan
  have h1 : b + 1 - a = 0 := by omega
  rw [h1]
  rfl

lemma monthSpan_eq_range_aux (b : Nat) :
    ∀ n a, b + 1 - a = n →
      monthSpan a b = (List.range n).map (fun i => a + i) := by
  intro n
  induction n with
  | zero =>
    intro a h
    have hlt : b < a := by omega
    rw [monthSpan_of_gt a b hlt]
    simp
  | succ m ih =>
    intro a h
    have ha : a ≤ b := by omega
    rw [monthSpan_of_le a b ha, List.range_succ_eq_map]
    simp only [List.map_cons, List.map_map, Nat.add_zero]
    rw [ih (a + 1) (by omega)]
    congr 1
    apply List.map_congr_left
    intro x _
    simp [Function.comp]
    omega

lemma monthSpan_eq_range (a b : Nat) :
    monthSpan a b = (List.range (b + 1 - a)).map (fun i => a + i) :=
  monthSpan_eq_range_aux b _ a rfl

lemma monthSpan_ne_nil (a b : Nat) (h : a ≤ b) : monthSpan a b ≠ [] := by
  rw [monthSpan_of_le a b h]
  simp

lemma monthSpan_head (a b : Nat) (h : a ≤ b) :
    (monthSpan a b).head? = some a := by
  rw [monthSpan_of_le a b h]
  rfl

lemma monthSpan_getLast (a b : Nat) (h : a ≤ b) :
    (monthSpan a b).getLast? = some b := by
  rw [monthSpan_eq_range]
  have hn : b + 1 - a = (b - a) + 1 := by omega
  rw [hn, List.range_succ, List.map_append]
  simp only [List.map_cons, List.map_nil]
  rw [List.getLast?_concat]
  congr 1
  omega

lemma monthSpan_chain (a b : Nat) :
    (monthSpan a b).Chain' (fun x y => y = x + 1) := by
  rw [monthSpan_eq_range, List.chain'_map]
  rcases n_eq : b + 1 - a with _ | m
  · simp
  · rw [List.chain'_range_succ]
    intro i _
    omega

lemma monthSpan_nodup (a b : Nat) : (monthSpan a b).Nodup := by
  rw [monthSpan_eq_range]
  exact (List.nodup_range _).map (fun i j hij => by omega)

lemma monthSpan_singleton (a : Nat) : monthSpan a a = [a] := by
  rw [monthSpan_of_le a a (le_refl a), monthSpan_of_gt (a + 1) a (by omega)]

lemma monthSpan_mem (a b p : Nat) : p ∈ monthSpan a b ↔ (a ≤ p ∧ p ≤ b) := by
  rw [monthSpan_eq_range]
  simp only [List.mem_map, List.mem_range]
  constructor
  · rintro ⟨i, hi, rfl⟩; omega
  · rintro ⟨h1, h2⟩; exact ⟨p - a, by omega, by omega⟩

/-! ### Helper lemmas about validity and the date extrema -/

lemma validRecord_iff (r : RawRecord) : validRecord r = true ↔
    ∃ a b q, r.planStart = some a ∧ r.planEnd = some b ∧
      r.budgetPlan = some q ∧ 0 < q ∧ Date.le a b = true := by
  unfold validRecord
  rcases r1 : r.planStart with _ | a <;>
    rcases r2 : r.planEnd with _ | b <;>
      rcases r3 : r.budgetPlan with _ | q <;>
        simp [Bool.and_eq_true, decide_eq_true_eq, and_assoc]

lemma listMinDate_eq_none {l : List Date} : listMinDate l = none ↔ l = [] := by
  cases l with
  | nil => simp [listMinDate]
  | cons d rest => unfold listMinDate; rcases listMinDate rest <;> simp

lemma listMaxDate_eq_none {l : List Date} : listMaxDate l = none ↔ l = [] := by
  cases l with
  | nil => simp [listMaxDate]
  | cons d rest => unfold listMaxDate; rcases listMaxDate rest <;> simp

lemma listMinDate_mem : ∀ {l : List Date} {m : Date},
    listMinDate l = some m → m ∈ l := by
  intro l
  induction l with
  | nil => intro m h; simp [listMinDate] at h
  | cons d rest ih =>
    intro m h
    unfold listMinDate at h
    rcases hr : listMinDate rest with _ | mr <;> rw [hr] at h
    · simp at h; simp [h]
    · simp at h
      unfold dateMin at h
      split_ifs at h
      · simp [h]
      · right; exact h ▸ ih hr

lemma listMinDate_le : ∀ {l : List Date} {m : Date},
    listMinDate l = some m → ∀ d ∈ l, Date.le m d = true := by
  intro l
  induction l with
  | nil => intro m h; simp [listMinDate] at h
  | cons x rest ih =>
    intro m h d hd
    unfold listMinDate at h
    rcases hr : listMinDate rest with _ | mr <;> rw [hr] at h <;> simp at h
    · have hrest : rest = [] := listMinDate_eq_none.mp hr
      subst hrest
      simp at hd
      rw [← h, hd]
      exact dateLe_refl x
    · unfold dateMin at h
      rcases List.mem_cons.mp hd with hdx | hdr
      · subst hdx
        split_ifs at h with hle
        · rw [← h]; exact dateLe_refl d
        · rw [← h]; exact dateLe_of_not_le hle
      · have hmr := ih hr d hdr
        split_ifs at h with hle
        · rw [← h]; exact dateLe_trans hle hmr
        · rw [← h]; exact hmr

lemma listMaxDate_mem : ∀ {l : List Date} {m : Date},
    listMaxDate l = some m → m ∈ l := by
  intro l
  induction l with
  | nil => intro m h; simp [listMaxDate] at h
  | cons d rest ih =>
    intro m h
    unfold listMaxDate at h
    rcases hr : listMaxDate rest with _ | mr <;> rw [hr] at h
    · simp at h; simp [h]
    · simp at h
      unfold dateMax at h
      split_ifs at h
      · right; exact h ▸ ih hr
      · simp [h]

lemma listMaxDate_ge : ∀ {l : List Date} {m : Date},
    listMaxDate l = some m → ∀ d ∈ l, Date.le d m = true := by
  intro l
  induction l with
  | nil => intro m h; simp [listMaxDate] at h
  | cons x rest ih =>
    intro m h d hd
    unfold listMaxDate at h
    rcases hr : listMaxDate rest with _ | mr <;> rw [hr] at h <;> simp at h
    · have hrest : rest = [] := listMaxDate_eq_none.mp hr
      subst hrest
      simp at hd
      rw [← h, hd]
      exact dateLe_refl x
    · unfold dateMax at h
      rcases List.mem_cons.mp hd with hdx | hdr
      · subst hdx
        split_ifs at h with hle
        · rw [← h]; exact hle
        · rw [← h]; exact dateLe_refl d
      · have hmr := ih hr d hdr
        split_ifs at h with hle
        · rw [← h]; exact hmr
        · rw [← h]; exact dateLe_trans hmr (dateLe_of_not_le hle)

lemma recordDatesWF_start {r : RawRecord} {d : Date}
    (h : recordDatesWF r = true) (hs : r.planStart = some d) :
    dateWF d = true := by
  unfold recordDatesWF at h
  rw [hs, Bool.and_eq_true] at h
  exact h.1

lemma recordDatesWF_end {r : RawRecord} {d : Date}
    (h : recordDatesWF r = true) (he : r.planEnd = some d) :
    dateWF d = true := by
  unfold recordDatesWF at h
  rw [he, Bool.and_eq_true] at h
  exact h.2

/-! ### Helper lemmas about the percentage rule -/

lemma monthPercent_zero (rule : DistributionRule) (n : Nat) :
    monthPercent rule n 0 = (groupPercents rule n).1 := by
  simp [monthPercent]

lemma monthPercent_last (rule : DistributionRule) (n : Nat) (h : 2 ≤ n) :
    monthPercent rule n (n - 1) = (groupPercents rule n).2.2 := by
  have h0 : ¬ (n - 1 = 0) := by omega
  simp [monthPercent, h0]

lemma monthPercent_middle (rule : DistributionRule) (n i : Nat)
    (h1 : 1 ≤ i) (h2 : i < n - 1) :
    monthPercent rule n i = (groupPercents rule n).2.1 := by
  have h0 : ¬ i = 0 := by omega
  have hl : ¬ i = n - 1 := by omega
  simp [monthPercent, h0, hl]

lemma groupPercents_of_three_le (rule : DistributionRule) (n : Nat) (h : 3 ≤ n) :
    groupPercents rule n =
      (rule.firstMonthPercent, rule.middleMonthsPercent / ((n - 2 : Nat) : ℚ),
        rule.lastMonthPercent) := by
  have h1 : ¬ n = 1 := by omega
  have h2 : ¬ n = 2 := by omega
  simp [groupPercents, h1, h2]

lemma sum_monthPercent_default (N : Nat) (h1 : 1 ≤ N) :
    ∑ j ∈ Finset.range N, monthPercent defaultRule N j = 1 := by
  match N, h1 with
  | 1, _ =>
    rw [Finset.sum_range_one]
    norm_num [monthPercent, groupPercents]
  | 2, _ =>
    rw [Finset.sum_range_succ, Finset.sum_range_one]
    norm_num [monthPercent, groupPercents, defaultRule]
  | (n + 3), _ =>
    rw [Finset.sum_range_succ, Finset.sum_range_succ']
    have hcast : ((n + 1 : Nat) : ℚ) ≠ 0 := by positivity
    have hmid : ∀ i ∈ Finset.range (n + 1),
        monthPercent defaultRule (n + 3) (i + 1) =
          defaultRule.middleMonthsPercent / ((n + 1 : Nat) : ℚ) := by
      intro i hi
      rw [Finset.mem_range] at hi
      rw [monthPercent_middle defaultRule (n + 3) (i + 1) (by omega) (by omega),
        groupPercents_of_three_le defaultRule (n + 3) (by omega)]
      norm_num
      ring_nf
    rw [Finset.sum_congr rfl hmid, Finset.sum_const, Finset.card_range,
      nsmul_eq_mul, monthPercent_zero,
      groupPercents_of_three_le defaultRule (n + 3) (by omega)]
    have hlast : monthPercent defaultRule (n + 3) (n + 2) =
        defaultRule.lastMonthPercent := by
      have heq : n + 2 = (n + 3) - 1 := by omega
      rw [heq, monthPercent_last defaultRule (n + 3) (by omega),
        groupPercents_of_three_le defaultRule (n + 3) (by omega)]
    rw [hlast]
    rw [mul_div_cancel₀ _ hcast]
    show defaultRule.middleMonthsPercent + defaultRule.firstMonthPercent +
      defaultRule.lastMonthPercent = 1
    norm_num [defaultRule]

/-- C1: with the default rule (0.50 / 0.45 / 0.05), the per-position
share of a span of `N` months is: for `N = 1` the single month gets 100%;
for `N = 2` the first month gets `firstMonthPercent` and the last month
gets `middleMonthsPercent + lastMonthPercent`; for `N ≥ 3` the first
month gets `firstMonthPercent`, the last month gets `lastMonthPercent`
and each interior position gets `middleMonthsPercent / (N - 2)`; and the
shares over the whole span sum to `1`. -/
theorem default_rule_position_shares (N i : Nat) (h1 : 1 ≤ N) :
    (N = 1 → monthPercent defaultRule N 0 = 1) ∧
    (N = 2 → monthPercent defaultRule N 0 = defaultRule.firstMonthPercent ∧
      monthPercent defaultRule N 1 =
        defaultRule.middleMonthsPercent + defaultRule.lastMonthPercent) ∧
    (3 ≤ N → monthPercent defaultRule N 0 = defaultRule.firstMonthPercent ∧
      monthPercent defaultRule N (N - 1) = defaultRule.lastMonthPercent ∧
      (1 ≤ i → i < N - 1 →
        monthPercent defaultRule N i =
          defaultRule.middleMonthsPercent / ((N : ℚ) - 2))) ∧
    ∑ j ∈ Finset.range N, monthPercent defaultRule N j = 1 := by
  refine ⟨?_, ?_, ?_, sum_monthPercent_default N h1⟩
  · intro hN; subst hN; norm_num [monthPercent, groupPercents]
  · intro hN; subst hN
    constructor
    · norm_num [monthPercent, groupPercents]
    · norm_num [monthPercent, groupPercents]
  · intro hN
    have hcast : ((N - 2 : Nat) : ℚ) = (N : ℚ) - 2 := by
      have : (2 : Nat) ≤ N := by omega
      push_cast [Nat.cast_sub this]
      ring
    refine ⟨?_, ?_, ?_⟩
    · rw [monthPercent_zero, groupPercents_of_three_le defaultRule N hN]
    · rw [monthPercent_last defaultRule N (by omega),
        groupPercents_of_three_le defaultRule N hN]
    · intro hi1 hi2
      rw [monthPercent_middle defaultRule N i hi1 hi2,
        groupPercents_of_three_le defaultRule N hN, hcast]

/-- Witness for C1 at a three-month span. -/
theorem default_rule_position_shares_witness :
    monthPercent defaultRule 3 0 = defaultRule.firstMonthPercent ∧
    monthPercent defaultRule 3 2 = defaultRule.lastMonthPercent ∧
    monthPercent defaultRule 3 1 =
      defaultRule.middleMonthsPercent / ((3 : ℚ) - 2) ∧
    ∑ j ∈ Finset.range 3, monthPercent defaultRule 3 j = 1 := by
  have h := default_rule_position_shares 3 1 (by decide)
  exact ⟨(h.2.2.1 (by decide)).1, (h.2.2.1 (by decide)).2.1,
    (h.2.2.1 (by decide)).2.2 (by decide) (by decide), h.2.2.2⟩

/-- C3: for every task group (a set of valid records with well-formed
dates and at least one member, so that the date extrema exist), the
Period Generator yields an ordered, gap-free, duplicate-free sequence of
calendar months from the month containing the group's minimum
`plan start` through the month containing its maximum `plan end`
inclusive; a group spanning a single calendar month yields exactly a
one-element sequence. -/
theorem period_generator_covers (members : List RawRecord) (mn mx : Date)
    (hmn : minStart? members = some mn) (hmx : maxEnd? members = some mx)
    (hvalid : ∀ r ∈ members, validRecord r = true)
    (hwf : ∀ r ∈ members, recordDatesWF r = true) :
    groupMonths members = monthSpan mn.periodM mx.periodM ∧
    (groupMonths members).head? = some mn.periodM ∧
    (groupMonths members).getLast? = some mx.periodM ∧
    (groupMonths members).Chain' (fun a b => b = a + 1) ∧
    (groupMonths members).Nodup ∧
    groupMonths members ≠ [] ∧
    (mn.periodM = mx.periodM → groupMonths members = [mn.periodM]) := by
  have hgm : groupMonths members = monthSpan mn.periodM mx.periodM := by
    unfold groupMonths
    rw [hmn, hmx]
  obtain ⟨r0, hr0mem, hr0s⟩ := List.mem_filterMap.mp (listMinDate_mem hmn)
  obtain ⟨a, b, q, ha, hb, hq, hqpos, hab⟩ :=
    (validRecord_iff r0).mp (hvalid r0 hr0mem)
  have haeq : a = mn := by
    rw [ha] at hr0s
    exact Option.some.inj hr0s
  subst haeq
  have hbmem : b ∈ members.filterMap (fun r => r.planEnd) :=
    List.mem_filterMap.mpr ⟨r0, hr0mem, hb⟩
  have hble : Date.le b mx = true := listMaxDate_ge hmx b hbmem
  obtain ⟨r1, hr1mem, hr1e⟩ := List.mem_filterMap.mp (listMaxDate_mem hmx)
  have hwf_mn : dateWF a = true := recordDatesWF_start (hwf r0 hr0mem) ha
  have hwf_b : dateWF b = true := recordDatesWF_end (hwf r0 hr0mem) hb
  have hwf_mx : dateWF mx = true := recordDatesWF_end (hwf r1 hr1mem) hr1e
  have hle : a.periodM ≤ mx.periodM := by
    have h1 := periodM_mono hwf_mn hwf_b hab
    have h2 := periodM_mono hwf_b hwf_mx hble
    omega
  refine ⟨hgm, ?_, ?_, ?_, ?_, ?_, ?_⟩
  · rw [hgm]; exact monthSpan_head _ _ hle
  · rw [hgm]; exact monthSpan_getLast _ _ hle
  · rw [hgm]; exact monthSpan_chain _ _
  · rw [hgm]; exact monthSpan_nodup _ _
  · rw [hgm]; exact monthSpan_ne_nil _ _ hle
  · intro heq
    rw [hgm, heq]
    exact monthSpan_singleton _

/-- Witness for C3: the single-month example record yields exactly the
one-element sequence of its month. -/
theorem period_generator_covers_witness :
    groupMonths [exRecord] = [Date.periodM ⟨2025, 1, 10⟩] :=
  (period_generator_covers [exRecord] ⟨2025, 1, 10⟩ ⟨2025, 1, 20⟩
    (by decide) (by decide) (by decide) (by decide)).2.2.2.2.2.2 (by decide)

/-! ### Helper lemmas about the monthly baseline -/

lemma activeInMonth_iff (r : RawRecord) (p : Nat) :
    activeInMonth r p = true ↔ ∃ sd ed, r.planStart = some sd ∧
      r.planEnd = some ed ∧ Date.le sd (periodEndDate p) = true ∧
      Date.le (periodStartDate p) ed = true := by
  unfold activeInMonth
  cases h1 : r.planStart <;> cases h2 : r.planEnd <;>
    simp [Bool.and_eq_true, and_assoc]

lemma monthlyBudget_cons (x : RawRecord) (xs : List RawRecord) (p : Nat) :
    monthlyBudget (x :: xs) p =
      (if activeInMonth x p then x.budgetPlan.getD 0 else 0) +
        monthlyBudget xs p := by
  unfold monthlyBudget
  rw [List.filter_cons]
  split_ifs <;> simp

lemma monthlyBudget_erase (members : List RawRecord) (p : Nat)
    (r : RawRecord) (hr : r ∈ members) (hactive : activeInMonth r p = true) :
    monthlyBudget members p =
      r.budgetPlan.getD 0 + monthlyBudget (members.erase r) p := by
  induction members with
  | nil => cases hr
  | cons x xs ih =>
    by_cases hxr : x = r
    · subst hxr
      rw [List.erase_cons_head, monthlyBudget_cons, if_pos hactive]
    · have hr' : r ∈ xs := by
        rcases List.mem_cons.mp hr with h | h
        · exact absurd h.symm hxr
        · exact h
      rw [List.erase_cons_tail (by simp [hxr]), monthlyBudget_cons,
        monthlyBudget_cons, ih hr']
      ring

/-- C2: the month's 100% baseline is the sum of `budget plan` over
exactly those member records whose interval overlaps the month
(`plan start <= month_end` and `plan end >= month_start`), and an
overlapping record contributes its full `budget plan` to the month's
baseline, with no prorating. -/
theorem monthly_baseline_overlap (members : List RawRecord) (p : Nat)
    (r : RawRecord) (hr : r ∈ members) :
    monthlyBudget members p =
      ((members.filter (fun x => activeInMonth x p)).map
        (fun x => x.budgetPlan.getD 0)).sum ∧
    (activeInMonth r p = true ↔ ∃ sd ed, r.planStart = some sd ∧
      r.planEnd = some ed ∧ Date.le sd (periodEndDate p) = true ∧
      Date.le (periodStartDate p) ed = true) ∧
    (activeInMonth r p = true →
      monthlyBudget members p =
        r.budgetPlan.getD 0 + monthlyBudget (members.erase r) p) :=
  ⟨rfl, activeInMonth_iff r p, monthlyBudget_erase members p r hr⟩

/-- Witness for C2: the example record contributes its full budget to
its month's baseline. -/
theorem monthly_baseline_overlap_witness :
    monthlyBudget [exRecord] 24300 =
      exRecord.budgetPlan.getD 0 +
        monthlyBudget ([exRecord].erase exRecord) 24300 :=
  (monthly_baseline_overlap [exRecord] 24300 exRecord (by decide)).2.2
    (by decide)

/-! ### Helper lemmas about row emission -/

lemma allocRowFor_eq_some {rule : DistributionRule} {nm : String}
    {k : List String} {members : List RawRecord} {numM : Nat}
    {ip : Nat × Nat} {row : AllocationRow} :
    allocRowFor rule nm k members numM ip = some row ↔
      monthlyBudget members ip.2 ≠ 0 ∧
      row = { month := ip.2,
              approvedBudget :=
                monthlyBudget members ip.2 * monthPercent rule numM ip.1,
              budgetPlan := monthlyBudget members ip.2, ruleName := nm,
              groupVals := k } := by
  unfold allocRowFor
  by_cases h : monthlyBudget members ip.2 = 0
  · simp [h]
  · simp [h, eq_comm]

lemma filterMap_allocRow_months (rule : DistributionRule) (nm : String)
    (k : List String) (members : List RawRecord) (numM : Nat) :
    ∀ (l : List Nat) (n : Nat),
      ((List.enumFrom n l).filterMap
          (allocRowFor rule nm k members numM)).map (fun row => row.month) =
        l.filter (fun p => decide (monthlyBudget members p ≠ 0)) := by
  intro l
  induction l with
  | nil => intro n; rfl
  | cons p rest ih =>
    intro n
    rw [List.enumFrom_cons, List.filterMap_cons, List.filter_cons]
    by_cases h0 : monthlyBudget members p = 0
    · simp only [allocRowFor, h0, if_pos rfl]
      simp [h0, ih (n + 1)]
    · simp only [allocRowFor, if_neg h0]
      simp [h0, ih (n + 1)]

/-- C8: a group emits exactly one row per month of its period sequence
with a nonzero baseline, in order, and no row at all for a month whose
baseline is exactly zero; since the period sequence has no duplicates,
no month gets two rows. -/
theorem zero_baseline_months_skipped (rule : DistributionRule)
    (nm : String) (k : List String) (members : List RawRecord) :
    (groupRows rule nm k members).map (fun row => row.month) =
      (groupMonths members).filter
        (fun p => decide (monthlyBudget members p ≠ 0)) ∧
    (groupMonths members).Nodup := by
  constructor
  · unfold groupRows
    exact filterMap_allocRow_months rule nm k members
      (groupMonths members).length (groupMonths members) 0
  · unfold groupMonths
    cases minStart? members with
    | none => simp
    | some mn =>
      cases maxEnd? members with
      | none => simp
      | some mx => exact monthSpan_nodup _ _

lemma engine_cases (s : Schema) (df : List RawRecord) (ruleName : String) :
    calculate_approved_budget s df ruleName =
      if missingCols s ≠ [] then ([], some (schemaErrorMsg (missingCols s)))
      else if df.filter validRecord = [] then ([], some noValidDataMsg)
      else if ((groupKeysOf s (df.filter validRecord)).flatMap fun k =>
          groupRows (getRule ruleName) (effectiveRuleName ruleName) k
            (membersOf s (df.filter validRecord) k)) = [] then
        ([], some noRowsMsg)
      else (((groupKeysOf s (df.filter validRecord)).flatMap fun k =>
          groupRows (getRule ruleName) (effectiveRuleName ruleName) k
            (membersOf s (df.filter validRecord) k)), none) := rfl

lemma mem_groupRows {rule : DistributionRule} {nm : String}
    {k : List String} {members : List RawRecord} {row : AllocationRow} :
    row ∈ groupRows rule nm k members ↔
      ∃ i p, (i, p) ∈ (groupMonths members).enum ∧
        monthlyBudget members p ≠ 0 ∧
        row = { month := p,
                approvedBudget := monthlyBudget members p *
                  monthPercent rule (groupMonths members).length i,
                budgetPlan := monthlyBudget members p, ruleName := nm,
                groupVals := k } := by
  unfold groupRows
  rw [List.mem_filterMap]
  constructor
  · rintro ⟨⟨i, p⟩, hip, hsome⟩
    rw [allocRowFor_eq_some] at hsome
    exact ⟨i, p, hip, hsome.1, hsome.2⟩
  · rintro ⟨i, p, hip, h0, hrow⟩
    exact ⟨(i, p), hip, allocRowFor_eq_some.mpr ⟨h0, hrow⟩⟩

lemma mem_engine_rows {s : Schema} {df : List RawRecord} {ruleName : String}
    {row : AllocationRow}
    (hmem : row ∈ (calculate_approved_budget s df ruleName).1) :
    ∃ k, k ∈ groupKeysOf s (df.filter validRecord) ∧
      row ∈ groupRows (getRule ruleName) (effectiveRuleName ruleName) k
        (membersOf s (df.filter validRecord) k) := by
  rw [engine_cases] at hmem
  split_ifs at hmem with h1 h2 h3
  · simp at hmem
  · simp at hmem
  · simp at hmem
  · exact List.mem_flatMap.mp hmem

/-- C4: every emitted row's allocated amount equals the row's own 100%
baseline multiplied by `monthPercent` applied to the row's ordinal
position within its group's period sequence — a function only of the
position, the span length and the chosen rule. -/
theorem allocation_amount_is_share_of_baseline (s : Schema)
    (df : List RawRecord) (ruleName : String) (row : AllocationRow)
    (hmem : row ∈ (calculate_approved_budget s df ruleName).1) :
    ∃ k i, k ∈ groupKeysOf s (df.filter validRecord) ∧
      row.groupVals = k ∧
      (i, row.month) ∈
        (groupMonths (membersOf s (df.filter validRecord) k)).enum ∧
      row.budgetPlan =
        monthlyBudget (membersOf s (df.filter validRecord) k) row.month ∧
      row.approvedBudget = row.budgetPlan *
        monthPercent (getRule ruleName)
          (groupMonths (membersOf s (df.filter validRecord) k)).length i := by
  obtain ⟨k, hk, hrow⟩ := mem_engine_rows hmem
  rw [mem_groupRows] at hrow
  obtain ⟨i, p, hip, h0, hroweq⟩ := hrow
  subst hroweq
  exact ⟨k, i, hk, rfl, hip, rfl, rfl⟩

/-- Witness for C4 on the single-month example input. -/
theorem allocation_amount_is_share_of_baseline_witness :
    exRow ∈ (calculate_approved_budget exSchema [exRecord] "default").1 ∧
    (∃ k i, k ∈ groupKeysOf exSchema ([exRecord].filter validRecord) ∧
      exRow.groupVals = k ∧
      (i, exRow.month) ∈
        (groupMonths (membersOf exSchema
          ([exRecord].filter validRecord) k)).enum ∧
      exRow.budgetPlan = monthlyBudget
        (membersOf exSchema ([exRecord].filter validRecord) k) exRow.month ∧
      exRow.approvedBudget = exRow.budgetPlan *
        monthPercent (getRule "default")
          (groupMonths (membersOf exSchema
            ([exRecord].filter validRecord) k)).length i) := by
  have hcab : calculate_approved_budget exSchema [exRecord] "default" =
      ([exRow], none) := by
    simp [calculate_approved_budget, missingCols, requiredCols, hasCol,
      validRecord, groupKeysOf, groupKeyOf, groupingPresent, keyParts,
      collectCells, membersOf, groupRows, groupMonths, minStart?, maxEnd?,
      listMinDate, listMaxDate, dateMin, dateMax, Date.le, monthSpan,
      monthSpanGo, List.enum, allocRowFor, monthlyBudget, activeInMonth,
      periodStartDate, periodEndDate, daysInMonth, isLeapYear,
      Date.periodM, monthPercent, groupPercents, getRule,
      effectiveRuleName, budget_rules, defaultRule, exSchema, exRecord,
      exRow]
  have hmem : exRow ∈ (calculate_approved_budget exSchema [exRecord]
      "default").1 := by
    rw [hcab]
    simp
  exact ⟨hmem, allocation_amount_is_share_of_baseline exSchema [exRecord]
    "default" exRow hmem⟩

/-! ### The Forecast Overlay -/

lemma engine_error_no_rows {s : Schema} {df : List RawRecord}
    {ruleName : String} {e : String}
    (h : (calculate_approved_budget s df ruleName).2 = some e) :
    (calculate_approved_budget s df ruleName).1 = [] := by
  rw [engine_cases] at h ⊢
  split_ifs at h ⊢ <;> simp_all

/-- C5: the Forecast Overlay computes exactly the Allocation Engine's
result on the edited data set when one is supplied (otherwise on the
original): the same rows with the allocated amount copied into the
`forecast budget` field, and the error propagated unchanged. -/
theorem forecast_overlay_equals_engine (s : Schema) (df : List RawRecord)
    (edited : Option (Schema × List RawRecord)) (ruleName : String) :
    calculate_forecast_budget s df edited ruleName =
      ((calculate_approved_budget (edited.getD (s, df)).1
          (edited.getD (s, df)).2 ruleName).1.map
        (fun r => { base := r, forecastBudget := r.approvedBudget }),
       (calculate_approved_budget (edited.getD (s, df)).1
          (edited.getD (s, df)).2 ruleName).2) := by
  unfold calculate_forecast_budget
  cases h2 : (calculate_approved_budget (edited.getD (s, df)).1
      (edited.getD (s, df)).2 ruleName).2 with
  | none => simp [h2]
  | some err => simp [h2, engine_error_no_rows h2]

/-- C6: when one or more required columns are absent the engine returns
no rows together with the error message naming exactly the missing
columns; the error is returned as data. -/
theorem schema_error_lists_missing (s : Schema) (df : List RawRecord)
    (ruleName : String) (c : String) (h : missingCols s ≠ []) :
    calculate_approved_budget s df ruleName =
      ([], some (schemaErrorMsg (missingCols s))) ∧
    (c ∈ missingCols s ↔ c ∈ requiredCols ∧ hasCol s c = false) := by
  constructor
  · unfold calculate_approved_budget
    simp [h]
  · unfold missingCols
    rw [List.mem_filter]
    simp

/-- Witness for C6: a schema lacking `budget plan` produces the schema
error naming exactly that column, and zero rows. -/
theorem schema_error_lists_missing_witness :
    calculate_approved_budget exSchemaNoBudget [exRecord] "default" =
      ([], some (schemaErrorMsg ["budget plan"])) ∧
    ("budget plan" ∈ missingCols exSchemaNoBudget ↔
      "budget plan" ∈ requiredCols ∧
        hasCol exSchemaNoBudget "budget plan" = false) := by
  have h := schema_error_lists_missing exSchemaNoBudget [exRecord]
    "default" "budget plan" (by decide)
  have hmc : missingCols exSchemaNoBudget = ["budget plan"] := by decide
  exact ⟨hmc ▸ h.1, h.2⟩

/-- C7: before grouping the engine excludes exactly the records with an
unparsed `plan start` or `plan end`, an inverted date range, or a
missing, non-numeric or non-positive `budget plan`; and it returns the
distinct "no valid data" error with zero rows if and only if the
exclusion leaves no records (the schema gate having passed). -/
theorem validity_filter_and_no_valid_data (s : Schema)
    (df : List RawRecord) (ruleName : String) (r : RawRecord)
    (hschema : missingCols s = []) :
    (r ∈ df.filter validRecord ↔ r ∈ df ∧ ∃ sd ed q,
      r.planStart = some sd ∧ r.planEnd = some ed ∧
      r.budgetPlan = some q ∧ 0 < q ∧ Date.le sd ed = true) ∧
    (df.filter validRecord = [] ↔
      calculate_approved_budget s df ruleName =
        ([], some noValidDataMsg)) := by
  constructor
  · rw [List.mem_filter, validRecord_iff]
  · constructor
    · intro hempty
      rw [engine_cases]
      simp [hschema, hempty]
    · intro heq
      by_contra hne
      rw [engine_cases] at heq
      rw [if_neg (by simp [hschema]), if_neg hne] at heq
      split_ifs at heq
      · simp [noRowsMsg, noValidDataMsg] at heq
      · simp at heq

/-- Witness for C7: a lone record with an inverted date range is
excluded, and the engine reports the "no valid data" error. -/
theorem validity_filter_and_no_valid_data_witness :
    ([exRecordInverted].filter validRecord = [] ↔
      calculate_approved_budget exSchema [exRecordInverted] "default" =
        ([], some noValidDataMsg)) :=
  (validity_filter_and_no_valid_data exSchema [exRecordInverted]
    "default" exRecordInverted (by decide)).2

/-! ### Helper lemmas for the grouping step -/

lemma filterMap_filter_isSome {α β : Type} (f : α → Option β)
    (l : List α) :
    (l.filter (fun x => (f x).isSome)).filterMap f = l.filterMap f := by
  induction l with
  | nil => rfl
  | cons x xs ih =>
    rw [List.filter_cons, List.filterMap_cons]
    cases hf : f x with
    | none => simp [hf, ih, List.filterMap_cons]
    | some v => simp [hf, ih, List.filterMap_cons]

lemma filter_filter_subpred {α : Type} (p q : α → Bool) (l : List α)
    (h : ∀ x, p x = true → q x = true) :
    (l.filter q).filter p = l.filter p := by
  induction l with
  | nil => rfl
  | cons x xs ih =>
    rw [List.filter_cons]
    cases hq : q x with
    | false =>
      have hp : p x = false := by
        cases hp : p x
        · rfl
        · rw [h x hp] at hq; cases hq
      simp [hq, hp, ih, List.filter_cons]
    | true =>
      simp [hq, ih, List.filter_cons]

lemma flatMap_congr_mem {α β : Type} (l : List α) (f g : α → List β)
    (h : ∀ x ∈ l, f x = g x) : l.flatMap f = l.flatMap g := by
  induction l with
  | nil => rfl
  | cons x xs ih =>
    rw [List.flatMap_cons, List.flatMap_cons, h x (by simp),
      ih (fun y hy => h y (by simp [hy]))]

/-- C9: a record whose grouping cell is null is dropped by the grouping
step (it belongs to no group's member list, and removing all such
records leaves the engine's row output unchanged), and when every valid
record has a null grouping key the engine returns an error with zero
rows. -/
theorem null_grouping_key_drops_records (s : Schema)
    (df : List RawRecord) (ruleName : String) (r : RawRecord)
    (k : List String) (hg : groupingPresent s = true) :
    (groupKeyOf s r = none →
      r ∉ membersOf s (df.filter validRecord) k) ∧
    ((calculate_approved_budget s
        (df.filter (fun x => (groupKeyOf s x).isSome)) ruleName).1 =
      (calculate_approved_budget s df ruleName).1) ∧
    ((df.filter validRecord).all
        (fun x => (groupKeyOf s x).isNone) = true →
      ∃ msg, calculate_approved_budget s df ruleName = ([], some msg)) := by
  refine ⟨?_, ?_, ?_⟩
  · intro hnone hmem
    simp [membersOf, List.mem_filter, hnone] at hmem
  · have hcomm : (df.filter (fun x => (groupKeyOf s x).isSome)).filter
        validRecord =
        (df.filter validRecord).filter
          (fun x => (groupKeyOf s x).isSome) := by
      rw [List.filter_filter, List.filter_filter]
      exact List.filter_congr (fun x _ => Bool.and_comm _ _)
    have hkeys : groupKeysOf s ((df.filter validRecord).filter
        (fun x => (groupKeyOf s x).isSome)) =
        groupKeysOf s (df.filter validRecord) := by
      unfold groupKeysOf
      rw [filterMap_filter_isSome]
    have hmembers : ∀ k', membersOf s ((df.filter validRecord).filter
        (fun x => (groupKeyOf s x).isSome)) k' =
        membersOf s (df.filter validRecord) k' := by
      intro k'
      unfold membersOf
      apply filter_filter_subpred
      intro x hx
      simp only [decide_eq_true_eq] at hx
      rw [hx]
      rfl
    rw [engine_cases, engine_cases, hcomm]
    by_cases hmiss : missingCols s ≠ []
    · rw [if_pos hmiss, if_pos hmiss]
    · rw [if_neg hmiss, if_neg hmiss]
      by_cases hv : df.filter validRecord = []
      · rw [hv]
        rfl
      · rw [if_neg hv]
        by_cases hv' : (df.filter validRecord).filter
            (fun x => (groupKeyOf s x).isSome) = []
        · rw [if_pos hv']
          have hkeysnil : (df.filter validRecord).filterMap
              (groupKeyOf s) = [] := by
            rw [← filterMap_filter_isSome (groupKeyOf s)
              (df.filter validRecord), hv']
            rfl
          have hgknil : groupKeysOf s (df.filter validRecord) = [] := by
            unfold groupKeysOf
            rw [hkeysnil]
            rfl
          rw [if_pos (by rw [hgknil]; rfl)]
        · rw [if_neg hv']
          have hrows : ((groupKeysOf s ((df.filter validRecord).filter
              (fun x => (groupKeyOf s x).isSome))).flatMap fun k' =>
                groupRows (getRule ruleName) (effectiveRuleName ruleName)
                  k' (membersOf s ((df.filter validRecord).filter
                    (fun x => (groupKeyOf s x).isSome)) k')) =
              ((groupKeysOf s (df.filter validRecord)).flatMap fun k' =>
                groupRows (getRule ruleName) (effectiveRuleName ruleName)
                  k' (membersOf s (df.filter validRecord) k')) := by
            rw [hkeys]
            exact flatMap_congr_mem _ _ _
              (fun k' _ => by rw [hmembers k'])
          rw [hrows]
  · intro hall
    have hkeysnil : (df.filter validRecord).filterMap
        (groupKeyOf s) = [] := by
      rw [List.filterMap_eq_nil_iff]
      intro x hx
      have := List.all_eq_true.mp hall x hx
      simpa [Option.isNone_iff_eq_none] using this
    rw [engine_cases]
    by_cases hmiss : missingCols s ≠ []
    · exact ⟨schemaErrorMsg (missingCols s), by rw [if_pos hmiss]⟩
    · rw [if_neg hmiss]
      by_cases hv : df.filter validRecord = []
      · exact ⟨noValidDataMsg, by rw [if_pos hv]⟩
      · have hgknil : groupKeysOf s (df.filter validRecord) = [] := by
          unfold groupKeysOf
          rw [hkeysnil]
          rfl
        refine ⟨noRowsMsg, ?_⟩
        rw [if_neg hv, if_pos (by rw [hgknil]; rfl)]

/-- Witness for C9: a valid record with a null `project name` is dropped
and the engine falls through to an error with zero rows. -/
theorem null_grouping_key_drops_records_witness :
    (exRecordNullKey ∉ membersOf exSchema
      ([exRecordNullKey].filter validRecord) ["P"]) ∧
    (∃ msg, calculate_approved_budget exSchema [exRecordNullKey]
      "default" = ([], some msg)) := by
  have h := null_grouping_key_drops_records exSchema [exRecordNullKey]
    "default" exRecordNullKey ["P"] (by decide)
  exact ⟨h.1 (by decide), h.2.2 (by decide)⟩

/-! ### Helper lemmas locating a date inside its own month -/

lemma startDate_le_self {d : Date} (h : dateWF d = true) :
    Date.le (periodStartDate d.periodM) d = true := by
  have hy : d.periodM / 12 = d.year := by
    rw [dateWF_iff] at h
    unfold Date.periodM
    omega
  have hm : d.periodM % 12 + 1 = d.month := by
    rw [dateWF_iff] at h
    unfold Date.periodM
    omega
  unfold periodStartDate
  rw [hy, hm, dateLe_iff]
  rw [dateWF_iff] at h
  dsimp only
  omega

lemma self_le_endDate {d : Date} (h : dateWF d = true) :
    Date.le d (periodEndDate d.periodM) = true := by
  have hy : d.periodM / 12 = d.year := by
    rw [dateWF_iff] at h
    unfold Date.periodM
    omega
  have hm : d.periodM % 12 + 1 = d.month := by
    rw [dateWF_iff] at h
    unfold Date.periodM
    omega
  unfold periodEndDate
  rw [hy, hm, dateLe_iff]
  rw [dateWF_iff] at h
  dsimp only
  omega

/-- C10: every group reached by the grouping step has a strictly
positive baseline in the first month of its period sequence (the member
attaining the minimum `plan start` overlaps that month and every member
budget is positive), so every group emits at least one row, and whenever
grouping yields at least one group the engine's final "no rows" fallback
error is unreachable. -/
theorem group_first_month_emits (s : Schema) (df : List RawRecord)
    (ruleName : String) (k : List String)
    (hwf : ∀ r ∈ df, recordDatesWF r = true)
    (hk : k ∈ groupKeysOf s (df.filter validRecord)) :
    (∃ p, (groupMonths (membersOf s (df.filter validRecord) k)).head? =
        some p ∧
      0 < monthlyBudget (membersOf s (df.filter validRecord) k) p) ∧
    groupRows (getRule ruleName) (effectiveRuleName ruleName) k
      (membersOf s (df.filter validRecord) k) ≠ [] ∧
    (missingCols s = [] →
      (calculate_approved_budget s df ruleName).1 ≠ [] ∧
      (calculate_approved_budget s df ruleName).2 ≠ some noRowsMsg) := by
  set members := membersOf s (df.filter validRecord) k with hmembers
  have hmem_sub : ∀ x ∈ members, x ∈ df.filter validRecord := by
    intro x hx
    rw [hmembers] at hx
    unfold membersOf at hx
    exact (List.mem_filter.mp hx).1
  have hmem_valid : ∀ x ∈ members, validRecord x = true := by
    intro x hx
    exact (List.mem_filter.mp (hmem_sub x hx)).2
  have hmem_wf : ∀ x ∈ members, recordDatesWF x = true := by
    intro x hx
    exact hwf x (List.mem_filter.mp (hmem_sub x hx)).1
  have hk' := hk
  unfold groupKeysOf at hk'
  rw [List.mem_dedup, List.mem_filterMap] at hk'
  obtain ⟨rk, hrkv, hrkk⟩ := hk'
  have hrkmem : rk ∈ members := by
    rw [hmembers]
    unfold membersOf
    rw [List.mem_filter]
    exact ⟨hrkv, by simp [hrkk]⟩
  obtain ⟨sdk, edk, qk, hsk, hek, hqk, hqkpos, habk⟩ :=
    (validRecord_iff rk).mp (hmem_valid rk hrkmem)
  have hsdk_mem : sdk ∈ members.filterMap (fun r => r.planStart) :=
    List.mem_filterMap.mpr ⟨rk, hrkmem, hsk⟩
  have hedk_mem : edk ∈ members.filterMap (fun r => r.planEnd) :=
    List.mem_filterMap.mpr ⟨rk, hrkmem, hek⟩
  obtain ⟨mn, hmn⟩ : ∃ mn,
      listMinDate (members.filterMap (fun r => r.planStart)) = some mn := by
    cases h : listMinDate (members.filterMap (fun r => r.planStart)) with
    | none =>
      rw [listMinDate_eq_none.mp h] at hsdk_mem
      cases hsdk_mem
    | some mn => exact ⟨mn, rfl⟩
  obtain ⟨mx, hmx⟩ : ∃ mx,
      listMaxDate (members.filterMap (fun r => r.planEnd)) = some mx := by
    cases h : listMaxDate (members.filterMap (fun r => r.planEnd)) with
    | none =>
      rw [listMaxDate_eq_none.mp h] at hedk_mem
      cases hedk_mem
    | some mx => exact ⟨mx, rfl⟩
  obtain ⟨r0, hr0mem, hr0s⟩ := List.mem_filterMap.mp (listMinDate_mem hmn)
  obtain ⟨sd0, ed0, q0, hs0, he0, hq0, hq0pos, hab0⟩ :=
    (validRecord_iff r0).mp (hmem_valid r0 hr0mem)
  have hsd0 : sd0 = mn := by
    rw [hs0] at hr0s
    exact Option.some.inj hr0s
  subst hsd0
  have hwf_mn : dateWF sd0 = true :=
    recordDatesWF_start (hmem_wf r0 hr0mem) hs0
  have hwf_ed0 : dateWF ed0 = true :=
    recordDatesWF_end (hmem_wf r0 hr0mem) he0
  obtain ⟨r1, hr1mem, hr1e⟩ := List.mem_filterMap.mp (listMaxDate_mem hmx)
  have hwf_mx : dateWF mx = true :=
    recordDatesWF_end (hmem_wf r1 hr1mem) hr1e
  have hed0mx : Date.le ed0 mx = true :=
    listMaxDate_ge hmx ed0 (List.mem_filterMap.mpr ⟨r0, hr0mem, he0⟩)
  have hle : sd0.periodM ≤ mx.periodM :=
    le_trans (periodM_mono hwf_mn hwf_ed0 hab0)
      (periodM_mono hwf_ed0 hwf_mx hed0mx)
  have hgm : groupMonths members = monthSpan sd0.periodM mx.periodM := by
    unfold groupMonths minStart? maxEnd?
    rw [hmn, hmx]
  have hmonths : groupMonths members =
      sd0.periodM :: monthSpan (sd0.periodM + 1) mx.periodM := by
    rw [hgm, monthSpan_of_le _ _ hle]
  have hact : activeInMonth r0 sd0.periodM = true := by
    unfold activeInMonth
    rw [hs0, he0, Bool.and_eq_true]
    exact ⟨self_le_endDate hwf_mn,
      dateLe_trans (startDate_le_self hwf_mn) hab0⟩
  have htot : 0 < monthlyBudget members sd0.periodM := by
    unfold monthlyBudget
    apply List.sum_pos
    · intro b hb
      obtain ⟨x, hxf, rfl⟩ := List.mem_map.mp hb
      have hxm : x ∈ members := (List.mem_filter.mp hxf).1
      obtain ⟨sx, ex, qx, hsx, hex, hqx, hqxpos, habx⟩ :=
        (validRecord_iff x).mp (hmem_valid x hxm)
      rw [hqx]
      exact hqxpos
    · apply List.ne_nil_of_mem
      exact List.mem_map.mpr ⟨r0,
        List.mem_filter.mpr ⟨hr0mem, by simp [hact]⟩, rfl⟩
  have hrowsk : groupRows (getRule ruleName) (effectiveRuleName ruleName)
      k members ≠ [] := by
    show ((groupMonths members).enum.filterMap
      (allocRowFor (getRule ruleName) (effectiveRuleName ruleName) k
        members (groupMonths members).length)) ≠ []
    rw [hmonths]
    have henum : (sd0.periodM ::
        monthSpan (sd0.periodM + 1) mx.periodM).enum =
        (0, sd0.periodM) ::
          List.enumFrom 1 (monthSpan (sd0.periodM + 1) mx.periodM) := rfl
    rw [henum, List.filterMap_cons]
    have hne0 : monthlyBudget members sd0.periodM ≠ 0 := htot.ne'
    simp [allocRowFor, hne0]
  refine ⟨⟨sd0.periodM, ?_, htot⟩, hrowsk, ?_⟩
  · rw [hmonths]
    rfl
  · intro hschema
    have hvne : df.filter validRecord ≠ [] := List.ne_nil_of_mem hrkv
    obtain ⟨row, hrow⟩ := List.exists_mem_of_ne_nil _ hrowsk
    have hrflat : row ∈ (groupKeysOf s (df.filter validRecord)).flatMap
        (fun k' => groupRows (getRule ruleName) (effectiveRuleName ruleName)
          k' (membersOf s (df.filter validRecord) k')) :=
      List.mem_flatMap.mpr ⟨k, hk, by rw [← hmembers]; exact hrow⟩
    have hrowsne : ((groupKeysOf s (df.filter validRecord)).flatMap
        (fun k' => groupRows (getRule ruleName) (effectiveRuleName ruleName)
          k' (membersOf s (df.filter validRecord) k'))) ≠ [] :=
      List.ne_nil_of_mem hrflat
    rw [engine_cases, if_neg (by simp [hschema]), if_neg hvne,
      if_neg hrowsne]
    exact ⟨hrowsne, by simp⟩

/-- Witness for C10 on the single-month example input. -/
theorem group_first_month_emits_witness :
    groupRows (getRule "default") (effectiveRuleName "default") ["P"]
      (membersOf exSchema ([exRecord].filter validRecord) ["P"]) ≠ [] ∧
    (calculate_approved_budget exSchema [exRecord] "default").1 ≠ [] := by
  have h := group_first_month_emits exSchema [exRecord] "default" ["P"]
    (by decide) (by decide)
  exact ⟨h.2.1, (h.2.2 (by decide)).1⟩

end BudgetApp
